import Mathlib

/-!
Verification of the colorbleed-config plugin repository.

Shallow embedding of four plugin modules:
  * `plugins/publish/integrate.py` (class `IntegrateAsset`)
  * `plugins/maya/publish/validate_node_ids_unique.py` (class `ValidateNodeIdsUnique`)
  * `plugins/maya/load/load_imagesequence.py` (function `open`, class `OpenImageSequence`)
  * `plugins/maya/create/colorbleed_pointcache.py` (class `CreatePointCache`)

External effects (the document database, the file system, the platform
open mechanism) are modelled as explicit oracles and event traces; the
plugin code itself is translated line by line.  Path manipulation uses
the POSIX semantics of the Python `os.path` module.
-/

namespace Colorbleed

/-! ## POSIX path helpers (`os.path.splitext`, `os.path.dirname`, `os.path.join`) -/

/-- Index of the last occurrence of a character in a list, if any.
Models the Python `str.rfind` used by `posixpath`. -/
def rfindIdx (c : Char) : List Char → Option Nat
  | [] => none
  | x :: xs =>
    match rfindIdx c xs with
    | some i => some (i + 1)
    | none => if x = c then some 0 else none

/-- `os.path.splitext` with POSIX separators: the extension starts at the
last dot, provided at least one character of the basename strictly before
that dot is not itself a dot (leading dots of a basename never start an
extension, so a dotfile like `.metadata` has no extension). -/
def splitext (p : String) : String × String :=
  let cs := p.toList
  match rfindIdx '.' cs with
  | none => (p, "")
  | some d =>
    let fi := match rfindIdx '/' cs with
      | none => 0
      | some i => i + 1
    if fi ≤ d ∧ ((cs.drop fi).take (d - fi)).any (fun ch => ch ≠ '.') then
      (String.mk (cs.take d), String.mk (cs.drop d))
    else
      (p, "")

/-- `os.path.dirname` with POSIX separators: everything up to and
including the last slash, with trailing slashes stripped unless the head
consists only of slashes. -/
def dirname (p : String) : String :=
  let cs := p.toList
  let i := match rfindIdx '/' cs with
    | none => 0
    | some j => j + 1
  let head := cs.take i
  if head ≠ [] ∧ head.any (fun ch => ch ≠ '/') then
    String.mk ((head.reverse.dropWhile (fun ch => ch = '/')).reverse)
  else
    String.mk head

/-- Two-argument `os.path.join` with POSIX separators. -/
def joinPath (a b : String) : String :=
  if b.startsWith "/" then b
  else if a = "" ∨ a.endsWith "/" then a ++ b
  else a ++ "/" ++ b

/-- Python `str.split()` with no argument: split on whitespace runs,
dropping empty fields.  Used for `instance.data.get("dependencies", "")`. -/
def splitWs (s : String) : List String :=
  (s.split (fun c => c.isWhitespace)).filter (fun t => t ≠ "")

/-! ## `ValidateNodeIdsUnique` (validate_node_ids_unique.py)

Members of a pyblish instance are Maya node names, modelled as strings.
`lib.get_id` is an external lookup, modelled as a function `gid`; a
missing id is modelled as the empty string (the code only tests
truthiness, `if not object_id`).  The Python 2 `defaultdict` keyed by id
is modelled as an association list in first-insertion key order; the
iteration order of `iteritems` is unspecified in Python 2, and every
property proved below is insensitive to it. -/

/-- Append member `m` to the entry of key `key`, creating the entry at
the end when absent.  Models `ids[object_id].append(member)` on a
`defaultdict(list)`. -/
def addMember (key m : String) : List (String × List String) → List (String × List String)
  | [] => [(key, [m])]
  | (k, ms) :: rest =>
    if k = key then (k, ms ++ [m]) :: rest
    else (k, ms) :: addMember key m rest

/-- The collection loop of `get_invalid`: fold the members into the id
table, skipping members whose id is falsy. -/
def idsFold (gid : String → String) : List String → List (String × List String) → List (String × List String)
  | [], acc => acc
  | m :: rest, acc =>
    if gid m = "" then idsFold gid rest acc
    else idsFold gid rest (addMember (gid m) m acc)

/-- The id table built by `get_invalid` from the instance members. -/
def idsOf (gid : String → String) (members : List String) : List (String × List String) :=
  idsFold gid members []

/-- `ValidateNodeIdsUnique.get_invalid`: every member list of the id
table with more than one member is appended to the result. -/
def get_invalid (gid : String → String) (members : List String) : List String :=
  (idsOf gid members).foldl (fun acc p => if 1 < p.2.length then acc ++ p.2 else acc) []

/-- The `RuntimeError` message raised by `process` (the real message also
interpolates the invalid list; no claim depends on the text). -/
def nonUniqueIdsMsg : String := "Nodes found with non-unique asset IDs"

/-- `ValidateNodeIdsUnique.process`: raise `RuntimeError` when
`get_invalid` returns a non-empty (truthy) list. -/
def processValidate (gid : String → String) (members : List String) : Except String Unit :=
  if get_invalid gid members ≠ [] then Except.error nonUniqueIdsMsg
  else Except.ok ()

/-- Lookup in the id table. -/
def lookupKey (k : String) : List (String × List String) → Option (List String)
  | [] => none
  | (k2, ms) :: rest => if k2 = k then some ms else lookupKey k rest

/-! ## `OpenImageSequence` (load_imagesequence.py)

The module-level function `open` dispatches on the platform
(`sys.platform.startswith('darwin')`, then `os.name == 'nt'`, then
`os.name == 'posix'`); it is modelled as `openDefault`, returning the
list of external invocations it performs.  `clique.assemble` is an
external library call, modelled by its result: a list of collections
(each collection modelled as the list of frame file names it yields, in
iteration order) and a remainder.  `os.path.normpath` is kept abstract
as a parameter. -/

/-- Platform as seen by the dispatch in `open` (the `darwin` arm wins
over `posix` because of the `elif` chain). -/
inductive Platform
  | darwin
  | windows
  | posix
  | other
  deriving DecidableEq, Repr

/-- An external invocation made by the module-level `open`. -/
inductive OpenCall
  | subprocessCall (args : List String)
  | startfile (path : String)
  deriving DecidableEq, Repr

/-- The module-level `open(filepath)` of load_imagesequence.py: call the
platform default-open mechanism.  On an unrecognised platform no branch
fires and nothing is invoked. -/
def openDefault (plat : Platform) (filepath : String) : List OpenCall :=
  match plat with
  | Platform.darwin => [OpenCall.subprocessCall ["open", filepath]]
  | Platform.windows => [OpenCall.startfile filepath]
  | Platform.posix => [OpenCall.subprocessCall ["xdg-open", filepath]]
  | Platform.other => []

/-- Result of `clique.assemble(files, patterns=[frames], minimum_items=1)`. -/
structure AssembleResult where
  collections : List (List String)
  remainder : List String
  deriving DecidableEq, Repr

/-- Errors `OpenImageSequence.process` can raise: the `assert not
remainder`, and the `IndexError` of `collections[0]` / `list(...)[0]`. -/
inductive LoaderErr
  | remainderAssert
  | indexError
  deriving DecidableEq, Repr

/-- `OpenImageSequence.process`: assert an empty remainder, take the
first frame of the first collection, normalize the joined path and open
it with the platform default mechanism. -/
def loaderProcess (plat : Platform) (normpath : String → String)
    (directory : String) (asm : AssembleResult) : Except LoaderErr (List OpenCall) :=
  if asm.remainder ≠ [] then Except.error LoaderErr.remainderAssert
  else
    match asm.collections with
    | [] => Except.error LoaderErr.indexError
    | c :: _ =>
      match c with
      | [] => Except.error LoaderErr.indexError
      | first :: _ => Except.ok (openDefault plat (normpath (joinPath directory first)))

/-! ## `CreatePointCache` (colorbleed_pointcache.py)

`self.data` is a string-keyed dictionary, modelled as a partial map.
The state after `super().__init__` and
`self.data.update(lib.collect_animation_data())` is abstract (`base`):
the seven assignments of `__init__` run after it and overwrite
regardless of its contents, and no claim depends on it. -/

/-- A value stored in the creator data dictionary. -/
inductive PCVal
  | boolV (b : Bool)
  | strV (s : String)
  deriving DecidableEq, Repr

/-- Dictionary store `d[k] = v`. -/
def setKey (d : String → Option PCVal) (k : String) (v : PCVal) : String → Option PCVal :=
  fun q => if q = k then some v else d q

/-- The data dictionary at the end of `CreatePointCache.__init__`,
starting from the abstract post-update state `base`; the seven
assignments are applied in source order. -/
def createPointCacheData (base : String → Option PCVal) : String → Option PCVal :=
  setKey (setKey (setKey (setKey (setKey (setKey (setKey base
    "writeColorSets" (PCVal.boolV false))
    "renderableOnly" (PCVal.boolV false))
    "visibleOnly" (PCVal.boolV false))
    "includeParentHierarchy" (PCVal.boolV false))
    "worldSpace" (PCVal.boolV true))
    "attr" (PCVal.strV ""))
    "attrPrefix" (PCVal.strV "")

/-! ## `IntegrateAsset` (integrate.py)

The database (`avalon.io`) and the file system are oracles.  Query
results (`find_one`) and allocated ids (`inserted_id`) are inputs;
inserts and file copies are recorded as outputs. -/

/-- An `OSError`, identified by its errno. -/
structure OSError where
  errno : Nat
  deriving DecidableEq, Repr

/-- `errno.EEXIST`. -/
def EEXIST : Nat := 17

/-- File-system oracle: the outcome of `os.makedirs` on a directory and
of `shutil.copy` on a source/destination pair (`none` means success). -/
structure FS where
  makedirsErr : String → Option OSError
  copyErr : String → String → Option OSError

/-- `IntegrateAsset.copy_file`: `os.makedirs(os.path.dirname(dst))`
inside a `try` that swallows an `OSError` whose errno is `EEXIST` and
re-raises any other, then `shutil.copy(src, dst)`.  Returns whether the
copy statement was reached, and the raised error if any. -/
def copy_file (fs : FS) (src dst : String) : Bool × Option OSError :=
  let d := dirname dst
  match fs.makedirsErr d with
  | some e =>
    if e.errno = EEXIST then (true, fs.copyErr src dst)
    else (false, some e)
  | none => (true, fs.copyErr src dst)

/-- A chunk of the publish template `project["config"]["template"]["publish"]`:
either literal text or one of the fields filled in by `str.format`. -/
inductive TmplPart
  | lit (s : String)
  | root
  | project
  | silo
  | asset
  | subset
  | version
  | representation
  deriving DecidableEq, Repr

/-- The `template_data` dictionary of `register` (the `version` entry is
the integer version name, rendered in decimal by `str.format`). -/
structure TemplateData where
  root : String
  project : String
  silo : String
  asset : String
  subset : String
  version : Nat
  representation : String
  deriving DecidableEq, Repr

/-- Render one template chunk against the data. -/
def renderPart (d : TemplateData) : TmplPart → String
  | TmplPart.lit s => s
  | TmplPart.root => d.root
  | TmplPart.project => d.project
  | TmplPart.silo => d.silo
  | TmplPart.asset => d.asset
  | TmplPart.subset => d.subset
  | TmplPart.version => toString d.version
  | TmplPart.representation => d.representation

/-- `template_publish.format(**template_data)`. -/
def formatTemplate (tp : List TmplPart) (d : TemplateData) : String :=
  String.join (tp.map (renderPart d))

/-- The per-file destination computed by the loop of `register`:
format the template with the file extension without its leading dot as
`representation`; a file named `.metadata.json` is instead placed under
the directory part of that formatted path, keeping its file name. -/
def dstFor (tp : List TmplPart) (base : TemplateData) (fname : String) : String :=
  let ext := (splitext fname).2
  let dst := formatTemplate tp { base with representation := ext.drop 1 }
  if fname = ".metadata.json" then joinPath (dirname dst) fname else dst

/-- The destination path exactly as the specification words it: the
publish template formatted with root, project, silo, asset, subset name,
version name, and the file extension without its leading dot as the
representation; except that a file named `.metadata.json` is placed
under the directory part of that formatted path keeping its original
file name.  Stated independently of `dstFor` to compare against it. -/
def specDst (tp : List TmplPart) (base : TemplateData) (fname : String) : String :=
  let formatted := formatTemplate tp { base with representation := (splitext fname).2.drop 1 }
  if fname = ".metadata.json" then joinPath (dirname formatted) fname else formatted

/-- `representation_labels` of `register`. -/
def representationLabels (ext : String) : Option String :=
  if ext = ".ma" then some "Maya Ascii"
  else if ext = ".source" then some "Original source file"
  else if ext = ".abc" then some "Alembic"
  else none

/-- The `context` sub-document of a representation record. -/
structure RepContext where
  project : String
  asset : String
  silo : String
  subset : String
  version : Nat
  representation : String
  deriving DecidableEq, Repr

/-- A representation record as built by the loop of `register` (the
constant `schema` and `type` fields are omitted). -/
structure Representation where
  parent : Nat
  name : String
  label : Option String
  dependencies : List String
  context : RepContext
  deriving DecidableEq, Repr

/-- The project document returned by the first `find_one` of `register`
(projected onto `config.template.publish`). -/
structure Project where
  id : Nat
  templatePublish : List TmplPart
  deriving DecidableEq, Repr

/-- A record inserted by `register` via `io.insert_one` (representation
records are inserted later, by `integrate`). -/
inductive DbRecord
  | subsetRec (parent : Nat) (name : String)
  | versionRec (parent : Nat) (name : Nat) (locations : List String)
  deriving DecidableEq, Repr

/-- The exceptions `register` can raise: the three asserts (the project
query returning `None` surfaces as a `TypeError` on the subscript at the
asset query), and the version-mismatch `AttributeError`. -/
inductive RegErr
  | atomicityFailed
  | stagingDirMissing
  | projectQueryFailed
  | assetQueryFailed
  | versionMismatch (assumed nextVersion : Nat)
  deriving DecidableEq, Repr

/-- Everything `register` inputs: environment variables, instance data,
and the database query results and allocated ids it observes. -/
structure RegInput where
  PROJECT : String
  ASSET : String
  SILO : String
  LOCATION : Option String
  root : String
  ctxResults : List Bool
  stagingDir : Option String
  project : Option Project
  assetId : Option Nat
  findSubsetId : Option Nat
  newSubsetId : Nat
  latestVersionName : Option Nat
  newVersionId : Nat
  subsetName : String
  assumedVersion : Nat
  stagingContent : List String
  transfers0 : List (String × String)
  dependencies : String

/-- What a successful `register` produces: the updated
`instance.data["transfers"]`, the stored `representations`, and the
version bookkeeping. -/
structure RegOk where
  transfers : List (String × String)
  representations : List Representation
  versionName : Nat
  versionId : Nat
  subsetId : Nat
  deriving DecidableEq, Repr

/-- Result of `register`: the records inserted into the database up to
the point of return or raise, and the outcome. -/
structure RegisterResult where
  dbInserts : List DbRecord
  outcome : Except RegErr RegOk

/-- The next-version computation of `register` (lines 108-110):
`next_version = 1`, then `next_version += latest_version["name"]` when
the query returned a document. -/
def nextVersionOf (latest : Option Nat) : Nat :=
  let next := 1
  match latest with
  | none => next
  | some n => next + n

/-- The `template_data` dictionary as `register` builds it (before the
loop sets `representation` per file). -/
def templateDataOf (inp : RegInput) (versionName : Nat) : TemplateData :=
  { root := inp.root
    project := inp.PROJECT
    silo := inp.SILO
    asset := inp.ASSET
    subset := inp.subsetName
    version := versionName
    representation := "" }

/-- One representation record of the loop of `register`. -/
def reprFor (inp : RegInput) (versionName : Nat) (fname : String) : Representation :=
  let ext := (splitext fname).2
  { parent := inp.newVersionId
    name := ext.drop 1
    label := representationLabels ext
    dependencies := splitWs inp.dependencies
    context :=
      { project := inp.PROJECT
        asset := inp.ASSET
        silo := inp.SILO
        subset := inp.subsetName
        version := versionName
        representation := ext.drop 1 } }

/-- `register` after its asserts have passed.  `get_subset` first
queries the subset by name and inserts a new subset record when absent
(the re-query by `_id` then returns the inserted document, whose name is
the queried name).  Then the latest-version query, the next-version
computation, the version-mismatch check, the version insert, and the
loop over `os.listdir(stagingdir)`. -/
def registerCore (inp : RegInput) (proj : Project) (assetId : Nat) : RegisterResult :=
  let sdir := inp.stagingDir.getD ""
  let subsetStep : List DbRecord × Nat :=
    match inp.findSubsetId with
    | some sid => ([], sid)
    | none => ([DbRecord.subsetRec assetId inp.subsetName], inp.newSubsetId)
  let next_version := nextVersionOf inp.latestVersionName
  if inp.assumedVersion ≠ next_version then
    { dbInserts := subsetStep.1
      outcome := Except.error (RegErr.versionMismatch inp.assumedVersion next_version) }
  else
    let base := templateDataOf inp next_version
    let tp := proj.templatePublish
    let newTransfers := inp.stagingContent.map (fun f => (joinPath sdir f, dstFor tp base f))
    let reps := inp.stagingContent.map (fun f => reprFor inp next_version f)
    { dbInserts := subsetStep.1 ++ [DbRecord.versionRec subsetStep.2 next_version inp.LOCATION.toList]
      outcome := Except.ok
        { transfers := inp.transfers0 ++ newTransfers
          representations := reps
          versionName := next_version
          versionId := inp.newVersionId
          subsetId := subsetStep.2 } }

/-- `IntegrateAsset.register`: the atomicity assert, the staging
directory assert, the project and asset queries with their assert, then
`registerCore`. -/
def register (inp : RegInput) : RegisterResult :=
  if ¬ inp.ctxResults.all (fun b => b) then
    { dbInserts := [], outcome := Except.error RegErr.atomicityFailed }
  else if inp.stagingDir.getD "" = "" then
    { dbInserts := [], outcome := Except.error RegErr.stagingDirMissing }
  else
    match inp.project with
    | none => { dbInserts := [], outcome := Except.error RegErr.projectQueryFailed }
    | some proj =>
      match inp.assetId with
      | none => { dbInserts := [], outcome := Except.error RegErr.assetQueryFailed }
      | some aid => registerCore inp proj aid

/-- The copy loop of `integrate`: `copy_file` on each transfer in order,
aborting at the first raise.  Returns the attempted copies (the failing
attempt included) and the raised error if any. -/
def runCopies (fs : FS) : List (String × String) → List (String × String) × Option OSError
  | [] => ([], none)
  | t :: rest =>
    match (copy_file fs t.1 t.2).2 with
    | some e => ([t], some e)
    | none =>
      let r := runCopies fs rest
      (t :: r.1, r.2)

/-- An externally visible action of `integrate`, in order. -/
inductive IoEvent
  | insertRep (r : Representation)
  | fileCopy (src dst : String)
  deriving DecidableEq, Repr

/-- Result of `integrate`: the ordered trace of its actions and the
raised error if any. -/
structure IntegrateResult where
  events : List IoEvent
  error : Option OSError

/-- `IntegrateAsset.integrate`: `io.insert_many(representations)` first
(inserting each record in order), then the copy loop over
`instance.data["transfers"]`. -/
def integrate (fs : FS) (transfers : List (String × String))
    (reps : List Representation) : IntegrateResult :=
  let c := runCopies fs transfers
  { events := reps.map IoEvent.insertRep ++ c.1.map (fun t => IoEvent.fileCopy t.1 t.2)
    error := c.2 }

/-- Observe a database insert in the trace. -/
def repOfEvent : IoEvent → Option Representation
  | IoEvent.insertRep r => some r
  | IoEvent.fileCopy _ _ => none

/-- Observe a file copy in the trace. -/
def copyOfEvent : IoEvent → Option (String × String)
  | IoEvent.insertRep _ => none
  | IoEvent.fileCopy s d => some (s, d)

/-- The representation records inserted according to a trace. -/
def insertedReps (res : IntegrateResult) : List Representation :=
  res.events.filterMap repOfEvent

/-- The file copies attempted according to a trace. -/
def copiedFiles (res : IntegrateResult) : List (String × String) :=
  res.events.filterMap copyOfEvent

/-- The exception propagated by `IntegrateAsset.process`. -/
inductive ProcErr
  | fromRegister (e : RegErr)
  | fromCopy (e : OSError)
  deriving DecidableEq, Repr

/-- Result of `IntegrateAsset.process`: whether (and on which path)
`shutil.rmtree` ran, and the propagated error if any. -/
structure ProcessResult where
  removedStagingDir : Option String
  error : Option ProcErr

/-- `IntegrateAsset.process`: `register`, then `integrate`, then
`shutil.rmtree(instance.data["stagingDir"])`; a raise in either step
propagates and skips everything after it. -/
def processIntegrator (inp : RegInput) (fs : FS) : ProcessResult :=
  let r := register inp
  match r.outcome with
  | Except.error e => { removedStagingDir := none, error := some (ProcErr.fromRegister e) }
  | Except.ok ok =>
    let it := integrate fs ok.transfers ok.representations
    match it.error with
    | some e => { removedStagingDir := none, error := some (ProcErr.fromCopy e) }
    | none => { removedStagingDir := inp.stagingDir, error := none }

/-! ## Concrete sample inputs used by witness theorems -/

/-- A concrete publish template for witnesses, in the shape of
`{root}/{project}/{subset}/v{version}/f.{representation}`. -/
def wProject : Project :=
  ⟨1, [TmplPart.root, TmplPart.lit "/", TmplPart.project, TmplPart.lit "/",
       TmplPart.subset, TmplPart.lit "/v", TmplPart.version, TmplPart.lit "/f.",
       TmplPart.representation]⟩

/-- A concrete register input for witnesses: one staged Alembic file and
the metadata sidecar, latest version 7 in the database, assumed 8. -/
def wInp : RegInput :=
  { PROJECT := "proj"
    ASSET := "hero"
    SILO := "assets"
    LOCATION := none
    root := "/projects"
    ctxResults := [true, true]
    stagingDir := some "/tmp/stage"
    project := some wProject
    assetId := some 2
    findSubsetId := some 3
    newSubsetId := 9
    latestVersionName := some 7
    newVersionId := 5
    subsetName := "modelDefault"
    assumedVersion := 8
    stagingContent := ["hero.abc", ".metadata.json"]
    transfers0 := []
    dependencies := "" }

/-- The successful outcome of `register` at `wInp`, by evaluation. -/
def wOk : RegOk := ((register wInp).outcome).toOption.getD ⟨[], [], 0, 0, 0⟩

/-- A file system on which every operation succeeds. -/
def wFS : FS := ⟨fun _ => none, fun _ _ => none⟩

/-- A file system whose copies all fail with errno 13. -/
def wFSFail : FS := ⟨fun _ => none, fun _ _ => some ⟨13⟩⟩

/-- A register input whose assumed version does not match the database
and whose subset does not yet exist. -/
def wInpBad : RegInput := { wInp with findSubsetId := none, assumedVersion := 3 }

/-- A sample representation record. -/
def wRep : Representation :=
  { parent := 5
    name := "abc"
    label := some "Alembic"
    dependencies := []
    context :=
      { project := "proj"
        asset := "hero"
        silo := "assets"
        subset := "modelDefault"
        version := 8
        representation := "abc" } }

/-! ## Lemmas: the id table of `get_invalid` -/

theorem lookupKey_addMember_self (key m : String) (acc : List (String × List String)) :
    lookupKey key (addMember key m acc) = some ((lookupKey key acc).getD [] ++ [m]) := by
  induction acc with
  | nil => simp [addMember, lookupKey]
  | cons p rest ih =>
    obtain ⟨k, ms⟩ := p
    by_cases h : k = key
    · subst h
      simp [addMember, lookupKey]
    · simp [addMember, lookupKey, h, ih]

theorem lookupKey_addMember_ne (key k' m : String) (acc : List (String × List String))
    (h : k' ≠ key) : lookupKey k' (addMember key m acc) = lookupKey k' acc := by
  induction acc with
  | nil => simp [addMember, lookupKey, Ne.symm h]
  | cons p rest ih =>
    obtain ⟨k, ms⟩ := p
    by_cases hk : k = key
    · subst hk
      simp [addMember, lookupKey, Ne.symm h]
    · simp [addMember, lookupKey, hk, ih]

theorem lookupKey_idsFold_some (gid : String → String) (k : String) (hk : k ≠ "") :
    ∀ (l : List String) (acc : List (String × List String)) (ms0 : List String),
      lookupKey k acc = some ms0 →
      lookupKey k (idsFold gid l acc) = some (ms0 ++ l.filter (fun m => gid m = k)) := by
  intro l
  induction l with
  | nil =>
    intro acc ms0 h
    simp [idsFold, h]
  | cons m rest ih =>
    intro acc ms0 h
    by_cases hm : gid m = ""
    · have hmk : ¬ gid m = k := fun e => hk (e.symm.trans hm)
      simp only [idsFold, if_pos hm]
      rw [List.filter_cons, if_neg (by simp [hmk])]
      exact ih acc ms0 h
    · by_cases hmk : gid m = k
      · have hstep : lookupKey k (addMember (gid m) m acc) = some (ms0 ++ [m]) := by
          rw [hmk, lookupKey_addMember_self, h]
          rfl
        simp only [idsFold, if_neg hm]
        rw [ih (addMember (gid m) m acc) (ms0 ++ [m]) hstep, List.filter_cons,
          if_pos (by simp [hmk])]
        simp [List.append_assoc]
      · have hstep : lookupKey k (addMember (gid m) m acc) = some ms0 := by
          rw [lookupKey_addMember_ne _ _ _ _ (fun e => hmk e.symm), h]
        simp only [idsFold, if_neg hm]
        rw [ih (addMember (gid m) m acc) ms0 hstep, List.filter_cons,
          if_neg (by simp [hmk])]

theorem lookupKey_idsFold_none (gid : String → String) (k : String) (hk : k ≠ "") :
    ∀ (l : List String) (acc : List (String × List String)),
      lookupKey k acc = none →
      lookupKey k (idsFold gid l acc) =
        if l.filter (fun m => gid m = k) = [] then none
        else some (l.filter (fun m => gid m = k)) := by
  intro l
  induction l with
  | nil =>
    intro acc h
    simp [idsFold, h]
  | cons m rest ih =>
    intro acc h
    by_cases hmk : gid m = k
    · have hm : ¬ gid m = "" := fun e => hk (hmk.symm.trans e)
      have hfc : (m :: rest).filter (fun x => gid x = k) =
          m :: rest.filter (fun x => gid x = k) := by
        rw [List.filter_cons, if_pos (by simp [hmk])]
      have hstep : lookupKey k (addMember (gid m) m acc) = some ([] ++ [m]) := by
        rw [hmk, lookupKey_addMember_self, h]
        rfl
      rw [hfc, if_neg (List.cons_ne_nil _ _)]
      simp only [idsFold, if_neg hm]
      rw [lookupKey_idsFold_some gid k hk rest (addMember (gid m) m acc) ([] ++ [m]) hstep]
      simp
    · have hfc : (m :: rest).filter (fun x => gid x = k) =
          rest.filter (fun x => gid x = k) := by
        rw [List.filter_cons, if_neg (by simp [hmk])]
      rw [hfc]
      by_cases hm : gid m = ""
      · simp only [idsFold, if_pos hm]
        exact ih acc h
      · have hstep : lookupKey k (addMember (gid m) m acc) = none := by
          rw [lookupKey_addMember_ne _ _ _ _ (fun e => hmk e.symm), h]
        simp only [idsFold, if_neg hm]
        exact ih (addMember (gid m) m acc) hstep

theorem mem_keys_addMember (key m x : String) (acc : List (String × List String))
    (h : x ∈ (addMember key m acc).map Prod.fst) :
    x = key ∨ x ∈ acc.map Prod.fst := by
  induction acc with
  | nil =>
    simp [addMember] at h
    exact Or.inl h
  | cons p rest ih =>
    obtain ⟨k, ms⟩ := p
    by_cases hk : k = key
    · subst hk
      simp only [addMember, if_pos rfl, List.map_cons] at h
      exact Or.inr (by simpa using h)
    · simp only [addMember, if_neg hk, List.map_cons, List.mem_cons] at h
      rcases h with h | h
      · exact Or.inr (by simp [h])
      · rcases ih h with h1 | h1
        · exact Or.inl h1
        · exact Or.inr (by simp [List.mem_cons, h1])

theorem keys_nodup_addMember (key m : String) (acc : List (String × List String))
    (h : (acc.map Prod.fst).Nodup) : ((addMember key m acc).map Prod.fst).Nodup := by
  induction acc with
  | nil => simp [addMember]
  | cons p rest ih =>
    obtain ⟨k, ms⟩ := p
    simp only [List.map_cons, List.nodup_cons] at h
    by_cases hk : k = key
    · subst hk
      simpa [addMember, List.nodup_cons] using h
    · have hrest := ih h.2
      simp only [addMember, if_neg hk, List.map_cons, List.nodup_cons]
      refine ⟨?_, hrest⟩
      intro hmem
      rcases mem_keys_addMember key m k rest hmem with h1 | h1
      · exact hk h1
      · exact h.1 h1

theorem keys_nodup_idsFold (gid : String → String) :
    ∀ (l : List String) (acc : List (String × List String)),
      (acc.map Prod.fst).Nodup → ((idsFold gid l acc).map Prod.fst).Nodup := by
  intro l
  induction l with
  | nil =>
    intro acc h
    simpa [idsFold] using h
  | cons m rest ih =>
    intro acc h
    by_cases hm : gid m = ""
    · simp only [idsFold, if_pos hm]
      exact ih acc h
    · simp only [idsFold, if_neg hm]
      exact ih _ (keys_nodup_addMember (gid m) m acc h)

theorem keys_ne_empty_idsFold (gid : String → String) :
    ∀ (l : List String) (acc : List (String × List String)),
      (∀ x ∈ acc.map Prod.fst, x ≠ "") →
      ∀ x ∈ (idsFold gid l acc).map Prod.fst, x ≠ "" := by
  intro l
  induction l with
  | nil =>
    intro acc h
    simpa [idsFold] using h
  | cons m rest ih =>
    intro acc h
    by_cases hm : gid m = ""
    · simp only [idsFold, if_pos hm]
      exact ih acc h
    · simp only [idsFold, if_neg hm]
      refine ih _ ?_
      intro x hx
      rcases mem_keys_addMember (gid m) m x acc hx with h1 | h1
      · exact h1 ▸ hm
      · exact h x h1

theorem mem_iff_lookupKey (k : String) (ms : List String) :
    ∀ acc : List (String × List String), (acc.map Prod.fst).Nodup →
      ((k, ms) ∈ acc ↔ lookupKey k acc = some ms) := by
  intro acc
  induction acc with
  | nil => simp [lookupKey]
  | cons p rest ih =>
    obtain ⟨k2, ms2⟩ := p
    intro h
    simp only [List.map_cons, List.nodup_cons] at h
    by_cases hk : k2 = k
    · subst hk
      simp only [lookupKey, List.mem_cons]
      rw [if_true]
      simp only [Option.some.injEq]
      constructor
      · rintro (hmem | hmem)
        · injection hmem with h1 h2
          exact h2.symm
        · exact absurd (List.mem_map_of_mem Prod.fst hmem) h.1
      · intro hsome
        exact Or.inl (by rw [hsome])
    · simp only [lookupKey, if_neg hk, List.mem_cons]
      rw [← ih h.2]
      constructor
      · rintro (hmem | hmem)
        · injection hmem with h1 h2
          exact absurd h1.symm hk
        · exact hmem
      · exact Or.inr

theorem entry_of_mem_idsOf (gid : String → String) (members : List String)
    (p : String × List String) (hp : p ∈ idsOf gid members) :
    p.1 ≠ "" ∧ p.2 = members.filter (fun m => gid m = p.1) ∧ p.2 ≠ [] := by
  have hkeys : ((idsOf gid members).map Prod.fst).Nodup :=
    keys_nodup_idsFold gid members [] (by simp)
  have hne : p.1 ≠ "" := by
    refine keys_ne_empty_idsFold gid members [] (by simp) p.1 ?_
    exact List.mem_map_of_mem Prod.fst hp
  have hlook : lookupKey p.1 (idsOf gid members) = some p.2 := by
    have := (mem_iff_lookupKey p.1 p.2 (idsOf gid members) hkeys).mp
    exact this (by simpa using hp)
  have hchar := lookupKey_idsFold_none gid p.1 hne members [] (by simp [lookupKey])
  rw [idsOf] at hlook
  rw [hlook] at hchar
  by_cases hf : members.filter (fun m => gid m = p.1) = []
  · rw [if_pos hf] at hchar
    exact absurd hchar (by simp)
  · rw [if_neg hf] at hchar
    have heq : p.2 = members.filter (fun m => gid m = p.1) := Option.some.inj hchar
    exact ⟨hne, heq, by rw [heq]; exact hf⟩

theorem mem_idsOf_of_filter_ne (gid : String → String) (members : List String) (k : String)
    (hk : k ≠ "") (hf : members.filter (fun m => gid m = k) ≠ []) :
    (k, members.filter (fun m => gid m = k)) ∈ idsOf gid members := by
  have hkeys : ((idsOf gid members).map Prod.fst).Nodup :=
    keys_nodup_idsFold gid members [] (by simp)
  have hchar := lookupKey_idsFold_none gid k hk members [] (by simp [lookupKey])
  rw [if_neg hf] at hchar
  exact (mem_iff_lookupKey k _ (idsOf gid members) hkeys).mpr hchar

theorem mem_collectInvalid (x : String) :
    ∀ (l : List (String × List String)) (init : List String),
      (x ∈ l.foldl (fun acc p => if 1 < p.2.length then acc ++ p.2 else acc) init ↔
        x ∈ init ∨ ∃ p, p ∈ l ∧ 1 < p.2.length ∧ x ∈ p.2) := by
  intro l
  induction l with
  | nil => simp
  | cons q rest ih =>
    intro init
    simp only [List.foldl_cons]
    rw [ih]
    by_cases hq : 1 < q.2.length
    · simp only [if_pos hq, List.mem_append, List.mem_cons]
      constructor
      · rintro ((h | h) | ⟨p, hp, hlen, hx⟩)
        · exact Or.inl h
        · exact Or.inr ⟨q, Or.inl rfl, hq, h⟩
        · exact Or.inr ⟨p, Or.inr hp, hlen, hx⟩
      · rintro (h | ⟨p, (rfl | hp), hlen, hx⟩)
        · exact Or.inl (Or.inl h)
        · exact Or.inl (Or.inr hx)
        · exact Or.inr ⟨p, hp, hlen, hx⟩
    · simp only [if_neg hq, List.mem_cons]
      constructor
      · rintro (h | ⟨p, hp, hlen, hx⟩)
        · exact Or.inl h
        · exact Or.inr ⟨p, Or.inr hp, hlen, hx⟩
      · rintro (h | ⟨p, (rfl | hp), hlen, hx⟩)
        · exact Or.inl h
        · exact absurd hlen hq
        · exact Or.inr ⟨p, hp, hlen, hx⟩

theorem get_invalid_ne_nil_iff (gid : String → String) (members : List String) :
    get_invalid gid members ≠ [] ↔
      ∃ k, k ≠ "" ∧ 1 < (members.filter (fun m => gid m = k)).length := by
  constructor
  · intro h
    obtain ⟨x, hx⟩ := List.exists_mem_of_ne_nil _ h
    rw [get_invalid, mem_collectInvalid] at hx
    rcases hx with hx | ⟨p, hp, hlen, hxp⟩
    · simp at hx
    · obtain ⟨hne, hfilter, -⟩ := entry_of_mem_idsOf gid members p hp
      exact ⟨p.1, hne, by rw [← hfilter]; exact hlen⟩
  · rintro ⟨k, hk, hlen⟩
    have hf : members.filter (fun m => gid m = k) ≠ [] := by
      intro h0
      rw [h0] at hlen
      simp at hlen
    obtain ⟨x, hx⟩ := List.exists_mem_of_ne_nil _ hf
    have hmem := mem_idsOf_of_filter_ne gid members k hk hf
    have : x ∈ get_invalid gid members := by
      rw [get_invalid, mem_collectInvalid]
      exact Or.inr ⟨(k, members.filter (fun m => gid m = k)), hmem, hlen, hx⟩
    exact List.ne_nil_of_mem this

theorem one_lt_length_of_two_mem {α : Type} {l : List α} {a b : α}
    (ha : a ∈ l) (hb : b ∈ l) (hab : a ≠ b) : 1 < l.length := by
  match l with
  | [] => cases ha
  | [x] =>
    simp only [List.mem_singleton] at ha hb
    exact absurd (ha.trans hb.symm) hab
  | x :: y :: t =>
    simp only [List.length_cons]
    omega

theorem idsFold_all_empty (gid : String → String) :
    ∀ (l : List String) (acc : List (String × List String)),
      (∀ m ∈ l, gid m = "") → idsFold gid l acc = acc := by
  intro l
  induction l with
  | nil => intro acc _; rfl
  | cons m rest ih =>
    intro acc h
    have hm : gid m = "" := h m (List.mem_cons_self m rest)
    simp only [idsFold, if_pos hm]
    exact ih acc (fun x hx => h x (List.mem_cons_of_mem m hx))

/-! ## Claim theorems: validator -/

/-- C3: with members being distinct nodes (Maya node names are unique),
`ValidateNodeIdsUnique.process` raises `RuntimeError` if and only if two
distinct member nodes of the instance carry the same non-empty
identifier; when all non-empty identifiers are pairwise distinct it
returns normally. -/
theorem validate_process_error_iff (gid : String → String) (members : List String)
    (hnd : members.Nodup) :
    processValidate gid members = Except.error nonUniqueIdsMsg ↔
      ∃ m1 m2, m1 ∈ members ∧ m2 ∈ members ∧ m1 ≠ m2 ∧
        gid m1 = gid m2 ∧ gid m1 ≠ "" := by
  have herr : processValidate gid members = Except.error nonUniqueIdsMsg ↔
      get_invalid gid members ≠ [] := by
    rw [processValidate]
    by_cases h : get_invalid gid members = []
    · simp [h]
    · simp [h]
  rw [herr, get_invalid_ne_nil_iff]
  constructor
  · rintro ⟨k, hk, hlen⟩
    rcases hfe : members.filter (fun m => gid m = k) with _ | ⟨a, _ | ⟨b, t⟩⟩
    · rw [hfe] at hlen
      simp at hlen
    · rw [hfe] at hlen
      simp at hlen
    · have hnf : (members.filter (fun m => gid m = k)).Nodup := hnd.filter _
      rw [hfe] at hnf
      have hab : a ≠ b := by
        rcases List.nodup_cons.mp hnf with ⟨hna, -⟩
        exact fun e => hna (e ▸ List.mem_cons_self b t)
      have ha : a ∈ members ∧ gid a = k := by
        have hmem : a ∈ members.filter (fun m => gid m = k) := by
          rw [hfe]
          simp
        simpa using List.mem_filter.mp hmem
      have hb : b ∈ members ∧ gid b = k := by
        have hmem : b ∈ members.filter (fun m => gid m = k) := by
          rw [hfe]
          simp
        simpa using List.mem_filter.mp hmem
      exact ⟨a, b, ha.1, hb.1, hab, ha.2.trans hb.2.symm, ha.2 ▸ hk⟩
  · rintro ⟨m1, m2, h1, h2, hne, heq, hne0⟩
    refine ⟨gid m1, hne0, ?_⟩
    have hm1 : m1 ∈ members.filter (fun m => gid m = gid m1) :=
      List.mem_filter.mpr ⟨h1, by simp⟩
    have hm2 : m2 ∈ members.filter (fun m => gid m = gid m1) :=
      List.mem_filter.mpr ⟨h2, by simp [heq]⟩
    exact one_lt_length_of_two_mem hm1 hm2 hne

/-- Witness for C3: two distinct nodes sharing the identifier `i` make
`process` raise. -/
theorem validate_process_error_iff_witness :
    processValidate (fun _ => "i") ["a", "b"] = Except.error nonUniqueIdsMsg :=
  (validate_process_error_iff (fun _ => "i") ["a", "b"] (by decide)).mpr
    ⟨"a", "b", by decide, by decide, by decide, rfl, by decide⟩

/-- C8: members whose identifier is missing (falsy) are skipped: when no
member has a non-empty identifier, `get_invalid` returns the empty list
and `process` returns normally. -/
theorem validate_skips_empty_ids (gid : String → String) (members : List String)
    (h : ∀ m ∈ members, gid m = "") :
    get_invalid gid members = [] ∧ processValidate gid members = Except.ok () := by
  have hids : idsOf gid members = [] := idsFold_all_empty gid members [] h
  have hinv : get_invalid gid members = [] := by
    rw [get_invalid, hids]
    rfl
  refine ⟨hinv, ?_⟩
  rw [processValidate, if_neg (by simp [hinv])]

/-- Witness for C8: two id-less members validate fine. -/
theorem validate_skips_empty_ids_witness :
    get_invalid (fun _ => "") ["a", "b"] = [] ∧
      processValidate (fun _ => "") ["a", "b"] = Except.ok () :=
  validate_skips_empty_ids (fun _ => "") ["a", "b"] (fun _ _ => rfl)

/-! ## Claim theorems: creator -/

/-- C7: whatever the inherited data dictionary holds, after
`CreatePointCache.__init__` the seven option keys hold their default
values: `worldSpace` is true, the four export flags are false, and the
two attribute options are empty strings. -/
theorem createPointCache_defaults (base : String → Option PCVal) :
    createPointCacheData base "worldSpace" = some (PCVal.boolV true) ∧
    createPointCacheData base "writeColorSets" = some (PCVal.boolV false) ∧
    createPointCacheData base "renderableOnly" = some (PCVal.boolV false) ∧
    createPointCacheData base "visibleOnly" = some (PCVal.boolV false) ∧
    createPointCacheData base "includeParentHierarchy" = some (PCVal.boolV false) ∧
    createPointCacheData base "attr" = some (PCVal.strV "") ∧
    createPointCacheData base "attrPrefix" = some (PCVal.strV "") := by
  refine ⟨?_, ?_, ?_, ?_, ?_, ?_, ?_⟩ <;> rfl

/-! ## Claim theorems: loader -/

/-- C4: when the directory listing assembles entirely into at least one
collection (empty remainder, a collection being non-empty by
construction of `clique.assemble` with `minimum_items=1`), `process`
opens the normalized path of the first frame of the first collection
with the platform default-open mechanism, exactly once. -/
theorem loader_opens_first_frame (plat : Platform) (normpath : String → String)
    (directory : String) (asm : AssembleResult) (f : String) (tl : List String)
    (cs : List (List String))
    (hrem : asm.remainder = [])
    (hcol : asm.collections = (f :: tl) :: cs)
    (hplat : plat ≠ Platform.other) :
    loaderProcess plat normpath directory asm =
      Except.ok (openDefault plat (normpath (joinPath directory f))) ∧
    (openDefault plat (normpath (joinPath directory f))).length = 1 := by
  constructor
  · rw [loaderProcess, if_neg (by simp [hrem]), hcol]
  · cases plat
    · rfl
    · rfl
    · rfl
    · exact absurd rfl hplat

/-- Witness for C4: a two-frame sequence on POSIX opens its first frame. -/
theorem loader_opens_first_frame_witness :
    loaderProcess Platform.posix (fun s => s) "/seq"
        ⟨[["a.0001.png", "a.0002.png"]], []⟩ =
      Except.ok (openDefault Platform.posix (joinPath "/seq" "a.0001.png")) ∧
    (openDefault Platform.posix (joinPath "/seq" "a.0001.png")).length = 1 :=
  loader_opens_first_frame Platform.posix (fun s => s) "/seq"
    ⟨[["a.0001.png", "a.0002.png"]], []⟩ "a.0001.png" ["a.0002.png"] [] rfl rfl (by decide)

/-! ## Claim theorems: integrator -/

/-- C2: `copy_file` swallows exactly the EEXIST `OSError` from
`makedirs` and re-raises every other, then performs the copy: it raises
iff `makedirs` fails with a non-EEXIST `OSError` or the copy itself
fails, and the copy statement is reached iff `makedirs` did not fail
with a non-EEXIST `OSError`. -/
theorem copy_file_error_iff (fs : FS) (src dst : String) :
    ((copy_file fs src dst).2 ≠ none ↔
      (∃ e, fs.makedirsErr (dirname dst) = some e ∧ e.errno ≠ EEXIST) ∨
        fs.copyErr src dst ≠ none) ∧
    ((copy_file fs src dst).1 = true ↔
      ¬ ∃ e, fs.makedirsErr (dirname dst) = some e ∧ e.errno ≠ EEXIST) := by
  simp only [copy_file]
  cases hmk : fs.makedirsErr (dirname dst) with
  | none => simp
  | some e =>
    by_cases he : e.errno = EEXIST
    · simp [he]
    · simp [he]

/-! Helper lemmas peeling `register` down to `registerCore`. -/

theorem register_eq_core_of_ok (inp : RegInput) (ok : RegOk)
    (h : (register inp).outcome = Except.ok ok) :
    ∃ proj aid, inp.project = some proj ∧ inp.assetId = some aid ∧
      register inp = registerCore inp proj aid := by
  unfold register at h ⊢
  split at h
  · simp at h
  · split at h
    · simp at h
    · split at h
      · simp at h
      · split at h
        · simp at h
        · rename_i hc1 hc2 o1 proj hproj o2 aid haid
          exact ⟨proj, aid, hproj, haid, by
            rw [if_neg hc1, if_neg hc2]⟩

theorem register_eq_core_of_mismatch (inp : RegInput) (a n : Nat)
    (h : (register inp).outcome = Except.error (RegErr.versionMismatch a n)) :
    ∃ proj aid, inp.project = some proj ∧ inp.assetId = some aid ∧
      register inp = registerCore inp proj aid := by
  unfold register at h ⊢
  split at h
  · simp at h
  · split at h
    · simp at h
    · split at h
      · simp at h
      · split at h
        · simp at h
        · rename_i hc1 hc2 o1 proj hproj o2 aid haid
          exact ⟨proj, aid, hproj, haid, by
            rw [if_neg hc1, if_neg hc2]⟩

theorem registerCore_ok_fields (inp : RegInput) (proj : Project) (aid : Nat) (ok : RegOk)
    (h : (registerCore inp proj aid).outcome = Except.ok ok) :
    ok.transfers = inp.transfers0 ++ inp.stagingContent.map (fun f =>
      (joinPath (inp.stagingDir.getD "") f,
       dstFor proj.templatePublish
         (templateDataOf inp (nextVersionOf inp.latestVersionName)) f)) ∧
    ok.representations = inp.stagingContent.map
      (fun f => reprFor inp (nextVersionOf inp.latestVersionName) f) ∧
    ok.versionName = nextVersionOf inp.latestVersionName ∧
    ok.versionId = inp.newVersionId := by
  simp only [registerCore] at h
  split at h
  · simp at h
  · simp only [Except.ok.injEq] at h
    subst h
    exact ⟨rfl, rfl, rfl, rfl⟩

theorem register_ok_fields (inp : RegInput) (ok : RegOk)
    (h : (register inp).outcome = Except.ok ok) :
    (∃ proj, inp.project = some proj ∧
      ok.transfers = inp.transfers0 ++ inp.stagingContent.map (fun f =>
        (joinPath (inp.stagingDir.getD "") f,
         dstFor proj.templatePublish
           (templateDataOf inp (nextVersionOf inp.latestVersionName)) f))) ∧
    ok.representations = inp.stagingContent.map
      (fun f => reprFor inp (nextVersionOf inp.latestVersionName) f) ∧
    ok.versionName = nextVersionOf inp.latestVersionName ∧
    ok.versionId = inp.newVersionId := by
  obtain ⟨proj, aid, hproj, haid, hre⟩ := register_eq_core_of_ok inp ok h
  rw [hre] at h
  obtain ⟨h1, h2, h3, h4⟩ := registerCore_ok_fields inp proj aid ok h
  exact ⟨⟨proj, hproj, h1⟩, h2, h3, h4⟩

/-- C1: when `register` completes, the version it created carries the
next version number: 1 when the latest-version query (sorted by name
descending) returned no document, the latest name plus 1 otherwise. -/
theorem register_next_version (inp : RegInput) (ok : RegOk)
    (h : (register inp).outcome = Except.ok ok) :
    ok.versionName = match inp.latestVersionName with
      | none => 1
      | some n => n + 1 := by
  have hv := (register_ok_fields inp ok h).2.2.1
  rw [hv]
  unfold nextVersionOf
  cases inp.latestVersionName with
  | none => rfl
  | some n => simp [Nat.add_comm]

/-- Witness for C1: with version 7 as the latest in the database, the
created version is number 8. -/
theorem register_next_version_witness : wOk.versionName = 8 :=
  register_next_version wInp wOk rfl

/-- The destination computed by the loop of `register` is the
destination the specification describes. -/
theorem dstFor_eq_specDst (tp : List TmplPart) (base : TemplateData) (fname : String) :
    dstFor tp base fname = specDst tp base fname := rfl

/-- C5: every staged file is sent to the publish template formatted with
root, project, silo, asset, subset name, version name and the file
extension without its leading dot as the representation; except that
`.metadata.json` goes under the directory part of that formatted path
keeping its name. -/
theorem register_builds_spec_destinations (inp : RegInput) (proj : Project) (ok : RegOk)
    (hproj : inp.project = some proj)
    (h : (register inp).outcome = Except.ok ok) :
    ok.transfers = inp.transfers0 ++ inp.stagingContent.map (fun f =>
      (joinPath (inp.stagingDir.getD "") f,
       specDst proj.templatePublish (templateDataOf inp ok.versionName) f)) := by
  obtain ⟨⟨proj2, hproj2, htr⟩, -, hv, -⟩ := register_ok_fields inp ok h
  rw [hproj] at hproj2
  injection hproj2 with he
  subst he
  rw [htr, hv]
  rfl

/-- Witness for C5: the two staged files of `wInp` land on their
spec-described destinations. -/
theorem register_builds_spec_destinations_witness :
    wOk.transfers = wInp.transfers0 ++ wInp.stagingContent.map (fun f =>
      (joinPath (wInp.stagingDir.getD "") f,
       specDst wProject.templatePublish (templateDataOf wInp wOk.versionName) f)) :=
  register_builds_spec_destinations wInp wProject wOk rfl rfl

/-! Helper lemmas about `integrate` and its copy loop. -/

theorem insertedReps_integrate (fs : FS) (tr : List (String × String))
    (reps : List Representation) :
    insertedReps (integrate fs tr reps) = reps := by
  have h1 : ∀ rs : List Representation,
      (rs.map IoEvent.insertRep).filterMap repOfEvent = rs := by
    intro rs
    induction rs with
    | nil => rfl
    | cons r rest ih => simp [List.filterMap_cons, repOfEvent, ih]
  have h2 : ∀ l : List (String × String),
      (l.map (fun t => IoEvent.fileCopy t.1 t.2)).filterMap repOfEvent = [] := by
    intro l
    induction l with
    | nil => rfl
    | cons t rest ih => simp [List.filterMap_cons, repOfEvent, ih]
  simp only [insertedReps, integrate, List.filterMap_append, h1, h2, List.append_nil]

theorem copiedFiles_integrate (fs : FS) (tr : List (String × String))
    (reps : List Representation) :
    copiedFiles (integrate fs tr reps) = (runCopies fs tr).1 := by
  have h1 : ∀ rs : List Representation,
      (rs.map IoEvent.insertRep).filterMap copyOfEvent = [] := by
    intro rs
    induction rs with
    | nil => rfl
    | cons r rest ih => simp [List.filterMap_cons, copyOfEvent, ih]
  have h2 : ∀ l : List (String × String),
      (l.map (fun t => IoEvent.fileCopy t.1 t.2)).filterMap copyOfEvent = l := by
    intro l
    induction l with
    | nil => rfl
    | cons t rest ih => simp [List.filterMap_cons, copyOfEvent, ih]
  simp only [copiedFiles, integrate, List.filterMap_append, h1, h2, List.nil_append]

theorem runCopies_complete (fs : FS) :
    ∀ tr : List (String × String), (runCopies fs tr).2 = none → (runCopies fs tr).1 = tr := by
  intro tr
  induction tr with
  | nil => intro _; rfl
  | cons t rest ih =>
    intro h
    simp only [runCopies] at h ⊢
    cases hc : (copy_file fs t.1 t.2).2 with
    | some e =>
      rw [hc] at h
      exact Option.noConfusion h
    | none =>
      rw [hc] at h
      have h2 : (runCopies fs rest).2 = none := h
      show t :: (runCopies fs rest).1 = t :: rest
      rw [ih h2]

/-- C6: `register` appends one transfer pair and builds one
representation record per staged file, with the new version id as the
parent and the dot-less extension as the name; `integrate` then inserts
every one of those records and, when no copy raises, copies every
transfer source to its destination. -/
theorem register_integrate_per_file (inp : RegInput) (ok : RegOk) (fs : FS)
    (h : (register inp).outcome = Except.ok ok) :
    ok.transfers.length = inp.transfers0.length + inp.stagingContent.length ∧
    ok.representations.length = inp.stagingContent.length ∧
    (∀ i (hi : i < ok.representations.length) (hj : i < inp.stagingContent.length),
      (ok.representations.get ⟨i, hi⟩).parent = inp.newVersionId ∧
      (ok.representations.get ⟨i, hi⟩).name =
        ((splitext (inp.stagingContent.get ⟨i, hj⟩)).2).drop 1) ∧
    insertedReps (integrate fs ok.transfers ok.representations) = ok.representations ∧
    ((integrate fs ok.transfers ok.representations).error = none →
      copiedFiles (integrate fs ok.transfers ok.representations) = ok.transfers) := by
  obtain ⟨⟨proj, hproj, htr⟩, hreps, -, -⟩ := register_ok_fields inp ok h
  refine ⟨?_, ?_, ?_, insertedReps_integrate fs ok.transfers ok.representations, ?_⟩
  · rw [htr]
    simp
  · rw [hreps]
    simp
  · intro i hi hj
    simp only [hreps, List.get_eq_getElem, List.getElem_map]
    exact ⟨rfl, rfl⟩
  · intro herr
    rw [copiedFiles_integrate]
    have : (runCopies fs ok.transfers).2 = none := by
      simpa only [integrate] using herr
    exact runCopies_complete fs ok.transfers this

/-- Witness for C6, at the concrete input `wInp` and a file system where
every copy succeeds. -/
theorem register_integrate_per_file_witness :
    wOk.transfers.length = wInp.transfers0.length + wInp.stagingContent.length ∧
    wOk.representations.length = wInp.stagingContent.length ∧
    (∀ i (hi : i < wOk.representations.length) (hj : i < wInp.stagingContent.length),
      (wOk.representations.get ⟨i, hi⟩).parent = wInp.newVersionId ∧
      (wOk.representations.get ⟨i, hi⟩).name =
        ((splitext (wInp.stagingContent.get ⟨i, hj⟩)).2).drop 1) ∧
    insertedReps (integrate wFS wOk.transfers wOk.representations) = wOk.representations ∧
    ((integrate wFS wOk.transfers wOk.representations).error = none →
      copiedFiles (integrate wFS wOk.transfers wOk.representations) = wOk.transfers) :=
  register_integrate_per_file wInp wOk wFS rfl

/-- When the subset query finds nothing, `registerCore` inserts the new
subset record whatever happens afterwards. -/
theorem registerCore_subset_mem (inp : RegInput) (proj : Project) (aid : Nat)
    (hsub : inp.findSubsetId = none) :
    DbRecord.subsetRec aid inp.subsetName ∈ (registerCore inp proj aid).dbInserts := by
  simp only [registerCore, hsub]
  split
  · simp
  · simp

/-- C9: database writes are never undone.  `integrate` performs all its
representation inserts before any file copy (the first `reps.length`
trace events are exactly the inserts and everything after is a copy), a
copy failure leaves every record inserted, and when `register` raises
the version-mismatch `AttributeError` after `get_subset` inserted a new
subset record, that record remains among the inserts. -/
theorem db_writes_not_rolled_back (fs : FS) (tr : List (String × String))
    (reps : List Representation) (inp : RegInput) :
    ((integrate fs tr reps).events.take reps.length = reps.map IoEvent.insertRep) ∧
    (∀ e ∈ (integrate fs tr reps).events.drop reps.length,
      ∃ s d, e = IoEvent.fileCopy s d) ∧
    ((integrate fs tr reps).error ≠ none → insertedReps (integrate fs tr reps) = reps) ∧
    (∀ a n aid, (register inp).outcome = Except.error (RegErr.versionMismatch a n) →
      inp.findSubsetId = none → inp.assetId = some aid →
      DbRecord.subsetRec aid inp.subsetName ∈ (register inp).dbInserts) := by
  refine ⟨?_, ?_, fun _ => insertedReps_integrate fs tr reps, ?_⟩
  · simp only [integrate]
    rw [← List.length_map reps IoEvent.insertRep, List.take_left]
  · simp only [integrate]
    rw [← List.length_map reps IoEvent.insertRep, List.drop_left]
    intro e he
    simp only [List.mem_map] at he
    obtain ⟨t, -, rfl⟩ := he
    exact ⟨t.1, t.2, rfl⟩
  · intro a n aid h hsub haid
    obtain ⟨proj, aid2, -, haid2, hre⟩ := register_eq_core_of_mismatch inp a n h
    rw [haid] at haid2
    injection haid2 with he
    subst he
    rw [hre]
    exact registerCore_subset_mem inp proj aid hsub

/-- Witness for C9: all-failing copies leave the record inserted, and
the mismatch raise at `wInpBad` leaves the new subset record inserted. -/
theorem db_writes_not_rolled_back_witness :
    insertedReps (integrate wFSFail [("/tmp/stage/hero.abc", "/projects/x")] [wRep]) = [wRep] ∧
    DbRecord.subsetRec 2 wInpBad.subsetName ∈ (register wInpBad).dbInserts :=
  ⟨(db_writes_not_rolled_back wFSFail [("/tmp/stage/hero.abc", "/projects/x")] [wRep]
      wInpBad).2.2.1 (by decide),
   (db_writes_not_rolled_back wFSFail [("/tmp/stage/hero.abc", "/projects/x")] [wRep]
      wInpBad).2.2.2 3 8 2 rfl rfl rfl⟩

/-- A successful `register` has checked that the staging directory is
set and non-empty. -/
theorem register_ok_stagingDir (inp : RegInput) (ok : RegOk)
    (h : (register inp).outcome = Except.ok ok) :
    inp.stagingDir.getD "" ≠ "" := by
  unfold register at h
  split at h
  · simp at h
  · split at h
    · simp at h
    · rename_i hc1 hc2
      exact hc2

/-- C10: `process` removes the staging directory if and only if both
`register` and `integrate` complete without raising; what it removes is
the instance staging directory. -/
theorem process_removes_staging_iff (inp : RegInput) (fs : FS) :
    ((processIntegrator inp fs).removedStagingDir.isSome = true ↔
      ∃ ok, (register inp).outcome = Except.ok ok ∧
        (integrate fs ok.transfers ok.representations).error = none) ∧
    ((processIntegrator inp fs).removedStagingDir = none ∨
      (processIntegrator inp fs).removedStagingDir = inp.stagingDir) := by
  simp only [processIntegrator]
  cases hr : (register inp).outcome with
  | error e =>
    constructor
    · simp
    · exact Or.inl rfl
  | ok ok =>
    dsimp only
    cases hi : (integrate fs ok.transfers ok.representations).error with
    | some e =>
      constructor
      · simp only [Option.isSome_none, Bool.false_eq_true, false_iff]
        rintro ⟨ok2, heq, herr⟩
        injection heq with he
        subst he
        rw [hi] at herr
        exact Option.noConfusion herr
      · exact Or.inl rfl
    | none =>
      constructor
      · constructor
        · intro _
          exact ⟨ok, rfl, hi⟩
        · intro _
          have hsd := register_ok_stagingDir inp ok hr
          cases hsdo : inp.stagingDir with
          | none =>
            rw [hsdo] at hsd
            simp at hsd
          | some s => rfl
      · exact Or.inr rfl

end Colorbleed
